import Mathlib

/-!
# Verification of the pairs-trading analytics core

Shallow embedding of the analytical core of the repository:
the alert state machine (app/alerts/alert_engine.py), the rolling
statistics (app/analytics/zscore.py and the inline statistics of
app/ingestion/binance_ws.py), the hedge-ratio and spread calculators
(app/analytics/hedge_ratio.py, app/analytics/spread.py), and the
tick-to-bar sampler (app/sampling/sampler.py).

Python floats are modelled as rationals (the code performs only field
arithmetic and comparisons on them); non-finite floats are modelled by
`Option` (`none` = NaN or infinity); a Python function that can raise is
modelled with `Except`; Python `None` results are `Option.none`.
-/

namespace Quant

/-! ## Alert engine (app/alerts/alert_engine.py)

`AlertEngine.evaluate` receives a z-score, a rolling correlation, an ADF
result dictionary and a timestamp, and returns either an alert dict or
Python `None`, mutating `self.current_state`.  The embedding threads the
state explicitly: `evaluate` maps the incoming state to the pair
(new state, optional alert). -/

/-- The non-neutral signal states of the engine (Python strings
"LONG" / "SHORT"; the neutral state is Python `None`, modelled as
`Option.none` around this type). -/
inductive Signal | long | short
deriving DecidableEq

/-- The reason tag of an emitted alert (the Python code stores a formatted
explanatory string; only its overbought/oversold content is modelled). -/
inductive Reason | overbought | oversold
deriving DecidableEq

/-- Result dictionary of the ADF test as consumed by the engine: the code
reads `adf_result.get('is_stationary', False)`.  The field is `none` when
the key is absent, `some b` when the dictionary maps the key to the
boolean `b` (the documented value type is `bool`). -/
structure AdfResult where
  stationary_key : Option Bool
deriving DecidableEq

/-- Constructor parameters of `AlertEngine`. -/
structure AlertCfg where
  threshold : ℚ
  reset_threshold : ℚ
  min_correlation : ℚ
deriving DecidableEq

/-- The alert dictionary built in the trigger branch of `evaluate`. -/
structure Alert where
  timestamp : String
  signal : Signal
  z_score : ℚ
  correlation : ℚ
  reason : Reason
deriving DecidableEq

/-- Python built-in `abs` on a (finite) float, written out so that the
kernel can evaluate it on concrete rationals; equal to `|q|`. -/
def pyabs (q : ℚ) : ℚ := if q < 0 then -q else q

/-- `pyabs` agrees with the mathematical absolute value. -/
theorem pyabs_eq_abs (q : ℚ) : pyabs q = |q| := by
  unfold pyabs
  split_ifs with h
  · exact (abs_of_neg h).symm
  · exact (abs_of_nonneg (not_lt.mp h)).symm

/-- `AlertEngine.evaluate`, with `self.current_state` threaded explicitly.
Returns (new current_state, returned alert or Python None).  Mirrors the
source branch for branch:
undefined-input guard, reset/hold logic when a state is held, then the
correlation filter, the stationarity filter and the z-score thresholds. -/
def evaluate (cfg : AlertCfg) (state : Option Signal)
    (z_score rolling_correlation : Option ℚ) (adf_result : Option AdfResult)
    (timestamp : String) : Option Signal × Option Alert :=
  match z_score, rolling_correlation, adf_result with
  | some z, some corr, some adf =>
    match state with
    | some _ =>
      -- 1. State reset logic
      if pyabs z < cfg.reset_threshold then (none, none)
      else (state, none)
    | none =>
      -- 2. Trigger logic (only if state is None)
      if corr < cfg.min_correlation then (none, none)
      else if adf.stationary_key.getD false = false then (none, none)
      else if cfg.threshold ≤ z then
        (some .short, some ⟨timestamp, .short, z, corr, .overbought⟩)
      else if z ≤ -cfg.threshold then
        (some .long, some ⟨timestamp, .long, z, corr, .oversold⟩)
      else (none, none)
  | _, _, _ => (state, none)

end Quant

namespace Quant

/-- C3: an undefined input makes `evaluate` a no-op: unchanged state, no alert. -/
theorem evaluate_undefined_input (cfg : AlertCfg) (state : Option Signal)
    (z corr : Option ℚ) (adf : Option AdfResult) (ts : String)
    (h : z = none ∨ corr = none ∨ adf = none) :
    evaluate cfg state z corr adf ts = (state, none) := by
  cases z <;> cases corr <;> cases adf <;> simp_all [evaluate]

/-- Witness for C3: with the default parameters, an undefined z-score leaves
a held SHORT state unchanged and emits nothing. -/
theorem evaluate_undefined_input_witness :
    evaluate ⟨2, 1/2, 7/10⟩ (some .short) none (some (9/10)) (some ⟨some true⟩) "t" =
      (some Signal.short, none) :=
  evaluate_undefined_input ⟨2, 1/2, 7/10⟩ (some .short) none (some (9/10))
    (some ⟨some true⟩) "t" (Or.inl rfl)

/-- C2: from the NONE state with all inputs defined and a positive entry
threshold, `evaluate` transitions to SHORT with a SHORT alert exactly when
correlation ≥ min_correlation, the series is stationary and z ≥ threshold;
to LONG with a LONG alert exactly when correlation ≥ min_correlation, the
series is stationary and z ≤ −threshold; and in every other case it stays
in NONE and emits nothing. -/
theorem evaluate_none_state_trigger (cfg : AlertCfg) (z corr : ℚ)
    (adf : AdfResult) (ts : String) (hT : 0 < cfg.threshold) :
    (evaluate cfg none (some z) (some corr) (some adf) ts =
        (some .short, some ⟨ts, .short, z, corr, .overbought⟩) ↔
      (cfg.min_correlation ≤ corr ∧ adf.stationary_key.getD false = true ∧
        cfg.threshold ≤ z)) ∧
    (evaluate cfg none (some z) (some corr) (some adf) ts =
        (some .long, some ⟨ts, .long, z, corr, .oversold⟩) ↔
      (cfg.min_correlation ≤ corr ∧ adf.stationary_key.getD false = true ∧
        z ≤ -cfg.threshold)) ∧
    (¬ (cfg.min_correlation ≤ corr ∧ adf.stationary_key.getD false = true ∧
        (cfg.threshold ≤ z ∨ z ≤ -cfg.threshold)) →
      evaluate cfg none (some z) (some corr) (some adf) ts = (none, none)) := by
  refine ⟨?_, ?_, ?_⟩ <;> simp only [evaluate] <;>
      split_ifs with h1 h2 h3 h4
  -- SHORT characterization
  · simp [not_le.mpr h1]
  · simp [h2]
  · have hb : adf.stationary_key.getD false = true := by
      cases hc : adf.stationary_key.getD false <;> simp_all
    simp [not_lt.mp h1, hb, h3]
  · have : ¬ cfg.threshold ≤ z := h3
    simp [this]
  · have : ¬ cfg.threshold ≤ z := h3
    simp [this]
  -- LONG characterization
  · simp [not_le.mpr h1]
  · simp [h2]
  · constructor
    · intro h
      exact absurd h (by simp)
    · rintro ⟨-, -, hz⟩
      linarith
  · have hb : adf.stationary_key.getD false = true := by
      cases hc : adf.stationary_key.getD false <;> simp_all
    simp [not_lt.mp h1, hb, h4]
  · have : ¬ z ≤ -cfg.threshold := h4
    simp [this]
  -- no-trigger case
  · intro h; rfl
  · intro h; rfl
  · intro h
    have hb : adf.stationary_key.getD false = true := by
      cases hc : adf.stationary_key.getD false <;> simp_all
    exact absurd ⟨not_lt.mp h1, hb, Or.inl h3⟩ h
  · intro h
    have hb : adf.stationary_key.getD false = true := by
      cases hc : adf.stationary_key.getD false <;> simp_all
    exact absurd ⟨not_lt.mp h1, hb, Or.inr h4⟩ h
  · intro h; rfl

/-- Witness for C2: with the default parameters, z = 2.5, correlation = 0.9
and a stationary ADF result, the engine moves NONE → SHORT and emits the
SHORT alert. -/
theorem evaluate_none_state_trigger_witness :
    evaluate ⟨2, 1/2, 7/10⟩ none (some (5/2)) (some (9/10)) (some ⟨some true⟩) "t" =
      (some Signal.short, some ⟨"t", Signal.short, 5/2, 9/10, Reason.overbought⟩) :=
  ((evaluate_none_state_trigger ⟨2, 1/2, 7/10⟩ (5/2) (9/10) ⟨some true⟩ "t"
      (by norm_num)).1).mpr ⟨by norm_num, rfl, by norm_num⟩

/-- C10: in state NONE with defined z-score and correlation, an ADF result
dictionary whose is_stationary key is missing or not mapped to true is
treated as non-stationary: no state transition, no alert, for every z and
correlation. -/
theorem evaluate_missing_stationarity_key (cfg : AlertCfg) (z corr : ℚ)
    (adf : AdfResult) (ts : String) (h : adf.stationary_key ≠ some true) :
    evaluate cfg none (some z) (some corr) (some adf) ts = (none, none) := by
  have hb : adf.stationary_key.getD false = false := by
    cases hc : adf.stationary_key with
    | none => rfl
    | some b => cases b with
      | false => rfl
      | true => exact absurd hc h
  simp only [evaluate]
  split_ifs with h1 <;> rfl

/-- Witness for C10: a dictionary without the is_stationary key blocks the
trigger even with z = 5 and correlation = 1. -/
theorem evaluate_missing_stationarity_key_witness :
    evaluate ⟨2, 1/2, 7/10⟩ none (some 5) (some 1) (some ⟨none⟩) "t" = (none, none) :=
  evaluate_missing_stationarity_key ⟨2, 1/2, 7/10⟩ 5 1 ⟨none⟩ "t" (by simp)

/-! ### Evaluation sequences of the alert state machine

A sequence of `evaluate` calls on one engine instance, as performed by the
caller tick after tick.  `stateAt cfg s ins k` is `self.current_state`
just before the k-th call, `outAt cfg s ins k` the value the k-th call
returns. -/

/-- One input snapshot handed to `AlertEngine.evaluate`. -/
structure Inp where
  z : Option ℚ
  corr : Option ℚ
  adf : Option AdfResult
  ts : String
deriving DecidableEq

/-- `evaluate` applied to one input snapshot. -/
def eval1 (cfg : AlertCfg) (s : Option Signal) (x : Inp) :
    Option Signal × Option Alert :=
  evaluate cfg s x.z x.corr x.adf x.ts

/-- Engine state held just before the k-th call of the sequence. -/
def stateAt (cfg : AlertCfg) : Option Signal → List Inp → ℕ → Option Signal
  | s, _, 0 => s
  | s, [], _ + 1 => s
  | s, x :: ins, k + 1 => stateAt cfg (eval1 cfg s x).1 ins k

/-- Return value of the k-th call of the sequence (`none` past the end). -/
def outAt (cfg : AlertCfg) : Option Signal → List Inp → ℕ → Option Alert
  | _, [], _ => none
  | s, x :: _, 0 => (eval1 cfg s x).2
  | s, x :: ins, k + 1 => outAt cfg (eval1 cfg s x).1 ins k

/-- Calls past the end of the sequence return nothing. -/
theorem outAt_eq_none_of_le (cfg : AlertCfg) :
    ∀ (ins : List Inp) (s : Option Signal) (k : ℕ), ins.length ≤ k →
      outAt cfg s ins k = none := by
  intro ins
  induction ins with
  | nil => intro s k _; rfl
  | cons x t ih =>
    intro s k hk
    cases k with
    | zero => simp at hk
    | succ k => exact ih _ k (by simpa using hk)

/-- The k-th call acts by `evaluate` on the k-th input from the k-th state. -/
theorem stepAt (cfg : AlertCfg) :
    ∀ (ins : List Inp) (s : Option Signal) (k : ℕ) (x : Inp),
      ins.get? k = some x →
      stateAt cfg s ins (k + 1) = (eval1 cfg (stateAt cfg s ins k) x).1 ∧
        outAt cfg s ins k = (eval1 cfg (stateAt cfg s ins k) x).2 := by
  intro ins
  induction ins with
  | nil => intro s k x h; simp at h
  | cons y t ih =>
    intro s k x h
    cases k with
    | zero =>
      cases h
      exact ⟨by simp [stateAt], by simp [outAt, stateAt]⟩
    | succ k => exact ih _ k x h

/-- A call can only return an alert from the NONE state. -/
theorem eval1_out_isSome_state (cfg : AlertCfg) (s : Option Signal) (x : Inp)
    (h : (eval1 cfg s x).2.isSome) : s = none := by
  cases s with
  | none => rfl
  | some sig =>
    exfalso
    rcases x with ⟨z, corr, adf, ts⟩
    cases z <;> cases corr <;> cases adf <;>
      simp only [eval1, evaluate] at h <;> try simp at h
    split_ifs at h <;> simp at h

/-- A call that returns an alert leaves the engine in a non-NONE state. -/
theorem eval1_out_isSome_next (cfg : AlertCfg) (x : Inp)
    (h : (eval1 cfg none x).2.isSome) : (eval1 cfg none x).1 ≠ none := by
  rcases x with ⟨z, corr, adf, ts⟩
  cases z <;> cases corr <;> cases adf <;>
    simp only [eval1, evaluate] at h ⊢ <;> try simp at h
  split_ifs at h ⊢ <;> simp_all

/-- The only way out of a held state is the reset branch: the call has a
defined z-score with |z| below the reset threshold and returns no alert. -/
theorem eval1_reset (cfg : AlertCfg) (sig : Signal) (x : Inp)
    (h : (eval1 cfg (some sig) x).1 = none) :
    ∃ zv, x.z = some zv ∧ pyabs zv < cfg.reset_threshold ∧
      (eval1 cfg (some sig) x).2 = none := by
  rcases x with ⟨z, corr, adf, ts⟩
  cases z with
  | none => simp [eval1, evaluate] at h
  | some zv =>
    cases corr with
    | none => simp [eval1, evaluate] at h
    | some cv =>
      cases adf with
      | none => simp [eval1, evaluate] at h
      | some r =>
        refine ⟨zv, rfl, ?_, ?_⟩ <;>
          simp only [eval1, evaluate] at h ⊢ <;>
          split_ifs at h ⊢ with hr <;> simp_all

/-- An alert-returning call starts from the NONE state (sequence form). -/
theorem stateAt_of_outAt_isSome (cfg : AlertCfg) :
    ∀ (ins : List Inp) (s : Option Signal) (k : ℕ),
      (outAt cfg s ins k).isSome → stateAt cfg s ins k = none := by
  intro ins
  induction ins with
  | nil => intro s k h; simp [outAt] at h
  | cons x t ih =>
    intro s k h
    cases k with
    | zero => exact eval1_out_isSome_state cfg s x h
    | succ k => exact ih _ k h

/-- C1: between any two alert-returning calls of an evaluation sequence
there is an intervening call whose defined z-score satisfies
|z| < reset_threshold, which resets the state to NONE and itself returns
no alert. -/
theorem alert_antispam_sequence (cfg : AlertCfg) (s : Option Signal)
    (ins : List Inp) (i j : ℕ) (hij : i < j)
    (hi : (outAt cfg s ins i).isSome) (hj : (outAt cfg s ins j).isSome) :
    ∃ k x zv, i < k ∧ k < j ∧ ins.get? k = some x ∧ x.z = some zv ∧
      pyabs zv < cfg.reset_threshold ∧ stateAt cfg s ins (k + 1) = none ∧
      outAt cfg s ins k = none := by
  have hjlen : j < ins.length := by
    by_contra hlen
    rw [outAt_eq_none_of_le cfg ins s j (le_of_not_lt hlen)] at hj
    simp at hj
  have hilen : i < ins.length := lt_trans hij hjlen
  obtain ⟨xi, hxi⟩ : ∃ x, ins.get? i = some x := ⟨_, List.get?_eq_get hilen⟩
  obtain ⟨hsi, hoi⟩ := stepAt cfg ins s i xi hxi
  have hbi : stateAt cfg s ins i = none := stateAt_of_outAt_isSome cfg ins s i hi
  have hafter : stateAt cfg s ins (i + 1) ≠ none := by
    rw [hsi, hbi]
    exact eval1_out_isSome_next cfg xi (by rw [hbi] at hoi; rw [← hoi]; exact hi)
  have hsj : stateAt cfg s ins j = none := stateAt_of_outAt_isSome cfg ins s j hj
  have hij2 : i + 1 < j := by
    rcases Nat.lt_or_ge (i + 1) j with h | h
    · exact h
    · exfalso
      have hje : j = i + 1 := le_antisymm h (Nat.succ_le_of_lt hij)
      rw [hje] at hsj
      exact hafter hsj
  have hex : ∃ m, i + 1 < m ∧ stateAt cfg s ins m = none := ⟨j, hij2, hsj⟩
  classical
  set m := Nat.find hex with hmdef
  have hm := Nat.find_spec hex
  have hmle : m ≤ j := Nat.find_min' hex ⟨hij2, hsj⟩
  have hbefore : stateAt cfg s ins (m - 1) ≠ none := by
    rcases Nat.eq_or_lt_of_le (by omega : i + 1 ≤ m - 1) with he | hlt
    · rw [← he]; exact hafter
    · intro hnone
      exact Nat.find_min hex (by omega : m - 1 < m) ⟨hlt, hnone⟩
  have hm1 : m - 1 + 1 = m := by omega
  have hklen : m - 1 < ins.length := by omega
  obtain ⟨xk, hxk⟩ : ∃ x, ins.get? (m - 1) = some x := ⟨_, List.get?_eq_get hklen⟩
  obtain ⟨hsk, hok⟩ := stepAt cfg ins s (m - 1) xk hxk
  have hnext : stateAt cfg s ins (m - 1 + 1) = none := by rw [hm1]; exact hm.2
  rcases hsig : stateAt cfg s ins (m - 1) with _ | sig
  · exact absurd hsig hbefore
  · rw [hsig] at hsk hok
    rw [hsk] at hnext
    obtain ⟨zv, hz, hzlt, hout⟩ := eval1_reset cfg sig xk hnext
    exact ⟨m - 1, xk, zv, by omega, by omega, hxk, hz, hzlt,
      by rw [hsk]; exact hnext, by rw [hok]; exact hout⟩

/-- Witness for C1: with thresholds (entry 2, reset 1, min corr 0) and the
call sequence z = 3, z = 0, z = 3 (correlation 1, stationary), calls 0 and
2 both alert and the theorem exhibits the reset in between. -/
theorem alert_antispam_sequence_witness :
    ∃ k x zv, 0 < k ∧ k < 2 ∧
      ([⟨some 3, some 1, some ⟨some true⟩, "t"⟩,
        ⟨some 0, some 1, some ⟨some true⟩, "t"⟩,
        ⟨some 3, some 1, some ⟨some true⟩, "t"⟩] : List Inp).get? k = some x ∧
      x.z = some zv ∧ pyabs zv < (1 : ℚ) ∧
      stateAt ⟨2, 1, 0⟩ none
        [⟨some 3, some 1, some ⟨some true⟩, "t"⟩,
         ⟨some 0, some 1, some ⟨some true⟩, "t"⟩,
         ⟨some 3, some 1, some ⟨some true⟩, "t"⟩] (k + 1) = none ∧
      outAt ⟨2, 1, 0⟩ none
        [⟨some 3, some 1, some ⟨some true⟩, "t"⟩,
         ⟨some 0, some 1, some ⟨some true⟩, "t"⟩,
         ⟨some 3, some 1, some ⟨some true⟩, "t"⟩] k = none :=
  alert_antispam_sequence ⟨2, 1, 0⟩ none
    [⟨some 3, some 1, some ⟨some true⟩, "t"⟩,
     ⟨some 0, some 1, some ⟨some true⟩, "t"⟩,
     ⟨some 3, some 1, some ⟨some true⟩, "t"⟩] 0 2
    (by decide) (by decide) (by decide)

/-! ## Rolling z-score (app/analytics/zscore.py and
app/ingestion/binance_ws.py, update_analytics)

`compute_zscore` uses pandas rolling mean and rolling std with ddof = 1
(unbiased sample standard deviation); a NaN entry (insufficient history,
zero standard deviation, or an infinity replaced by NaN at the end of the
function) is modelled as `none`.  `update_analytics` recomputes the mean
and std of the whole spread window with numpy, whose `np.std` default is
ddof = 0 (population standard deviation), and substitutes 0.0 for the
z-score when the std is not above 1e-6. -/

/-- `np.mean` / rolling mean of a list of floats. -/
def listMean (l : List ℚ) : ℚ := l.sum / l.length

/-- Sum of squared deviations from the mean. -/
def sqDevSum (l : List ℚ) : ℚ := (l.map (fun x => (x - listMean l) ^ 2)).sum

/-- ddof = 1 variance (`rolling.std(ddof=1)` squared): N − 1 denominator. -/
def sampleVar (l : List ℚ) : ℚ := sqDevSum l / ((l.length : ℚ) - 1)

/-- ddof = 0 variance (`np.std` squared): N denominator. -/
def popVar (l : List ℚ) : ℚ := sqDevSum l / (l.length : ℚ)

/-- The trailing window of size `window` ending at index `i` of the series
(the values pandas aggregates for the i-th rolling entry). -/
def windowAt (series : List ℚ) (window i : ℕ) : List ℚ :=
  (series.take (i + 1)).drop (i + 1 - window)

/-- Entry `i` of the array returned by `compute_zscore`:
NaN (`none`) while fewer than `window` observations exist, NaN when the
rolling std is zero (0/0, or an infinity replaced by NaN), otherwise
(value − rolling mean) / rolling sample std. -/
noncomputable def zscoreEntry (series : List ℚ) (window i : ℕ) : Option ℝ :=
  if i + 1 < window ∨ series.length ≤ i then none
  else if sampleVar (windowAt series window i) = 0 then none
  else some (((series.getD i 0 - listMean (windowAt series window i) : ℚ) : ℝ) /
    Real.sqrt ((sampleVar (windowAt series window i) : ℚ) : ℝ))

/-- `compute_zscore(series, window)`: raises ValueError for window ≤ 1,
otherwise returns the array of rolling z-scores. -/
noncomputable def compute_zscore (series : List ℚ) (window : ℕ) :
    Except String (List (Option ℝ)) :=
  if window ≤ 1 then Except.error "Window size must be greater than 1."
  else Except.ok ((List.range series.length).map (zscoreEntry series window))

/-- For a nonnegative variance, std > 1e-6 is the same as variance > 1e-12;
justifies writing the `std_spread > 1e-6` guard of update_analytics on the
(rational) variance in `update_zscore` below. -/
theorem sqrt_gt_eps_iff (v : ℚ) :
    (1 : ℝ) / 1000000 < Real.sqrt (v : ℝ) ↔ (1 : ℚ) / 1000000000000 < v := by
  rw [Real.lt_sqrt (by norm_num)]
  rw [show ((1 : ℝ) / 1000000) ^ 2 = (((1 : ℚ) / 1000000000000 : ℚ) : ℝ) by norm_num]
  exact_mod_cast Iff.rfl

/-- The z-score step of `update_analytics`: mean and std of the whole
spread history with numpy (ddof = 0), `zscore = 0.0` unless
`std_spread > 1e-6` (the guard is written on the variance, see
`sqrt_gt_eps_iff`), else (spread − mean) / std where spread is the newest
(last) element of the history. -/
noncomputable def update_zscore (spread_history : List ℚ) : ℝ :=
  if (1 : ℚ) / 1000000000000 < popVar spread_history then
    ((spread_history.getLastD 0 - listMean spread_history : ℚ) : ℝ) /
      Real.sqrt ((popVar spread_history : ℚ) : ℝ)
  else 0

/-- `update_analytics` returns before computing any z-score while the
spread history holds fewer than 5 points; afterwards the published
z-score is always the (possibly substituted) `update_zscore` value. -/
noncomputable def update_analytics_zscore (spread_history : List ℚ) : Option ℝ :=
  if spread_history.length < 5 then none else some (update_zscore spread_history)

/-- C4 (refuting evaluation): the two z-score code paths do not use the
same standard-deviation convention.  On the window [0,0,0,0,1] the
ddof = 1 path (compute_zscore) divides by the sample std, variance 1/5,
while the update_analytics path (np.std) divides by the population std,
variance 4/25, and the two z-scores disagree. -/
theorem zscore_convention_mismatch :
    sampleVar [0, 0, 0, 0, 1] = 1 / 5 ∧ popVar [0, 0, 0, 0, 1] = 4 / 25 ∧
    zscoreEntry [0, 0, 0, 0, 1] 5 4 ≠ some (update_zscore [0, 0, 0, 0, 1]) := by
  have h4 : Real.sqrt 4 = 2 := by
    rw [show (4 : ℝ) = 2 ^ 2 by norm_num, Real.sqrt_sq (by norm_num)]
  have h25 : Real.sqrt 25 = 5 := by
    rw [show (25 : ℝ) = 5 ^ 2 by norm_num, Real.sqrt_sq (by norm_num)]
  have hu : update_zscore [0, 0, 0, 0, 1] = 2 := by
    rw [update_zscore]
    rw [if_pos (by norm_num [popVar, sqDevSum, listMean])]
    norm_num [popVar, sqDevSum, listMean, List.getLastD]
    rw [h4, h25]
    norm_num
  have hz : zscoreEntry [0, 0, 0, 0, 1] 5 4 =
      some ((4 / 5 : ℝ) / Real.sqrt ((1 / 5 : ℚ) : ℝ)) := by
    rw [zscoreEntry]
    rw [if_neg (by norm_num)]
    rw [if_neg (by norm_num [windowAt, sampleVar, sqDevSum, listMean])]
    norm_num [windowAt, sampleVar, sqDevSum, listMean]
  refine ⟨by norm_num [sampleVar, sqDevSum, listMean],
    by norm_num [popVar, sqDevSum, listMean], ?_⟩
  rw [hu, hz]
  intro hcon
  have heq : ((4 / 5 : ℝ) / Real.sqrt ((1 / 5 : ℚ) : ℝ)) = 2 := Option.some.inj hcon
  have hs : Real.sqrt ((1 / 5 : ℚ) : ℝ) ^ 2 = (1 / 5 : ℝ) := by
    rw [Real.sq_sqrt (by norm_num)]
    norm_num
  have h2 : ((4 / 5 : ℝ) / Real.sqrt ((1 / 5 : ℚ) : ℝ)) ^ 2 = 4 := by
    rw [heq]; norm_num
  rw [div_pow, hs] at h2
  norm_num at h2

/-- C5 (refuting evaluation): on a constant spread history of length 5 the
update_analytics path does not publish an undefined z-score: the zero
standard deviation is silently substituted by the finite value 0.0. -/
theorem update_zscore_substitutes_zero :
    update_analytics_zscore [7, 7, 7, 7, 7] = some 0 := by
  rw [update_analytics_zscore, if_neg (by norm_num)]
  rw [update_zscore, if_neg (by norm_num [popVar, sqDevSum, listMean])]

/-- C5 (amended): when the rolling standard deviation is (numerically)
zero, the compute_zscore path yields an undefined z-score, but the
update_analytics path yields the substituted finite value 0.0 (published
downstream) rather than an undefined one. -/
theorem zscore_zero_std (series : List ℚ) (window i : ℕ) (hist : List ℚ)
    (hvar : sampleVar (windowAt series window i) = 0)
    (hpop : popVar hist ≤ 1 / 1000000000000) :
    zscoreEntry series window i = none ∧ update_zscore hist = 0 := by
  constructor
  · rw [zscoreEntry]
    split_ifs with h1 <;> rfl
  · rw [update_zscore, if_neg (not_lt.mpr hpop)]

/-- Witness for C5 (amended): a constant window [3,3] gives an undefined
compute_zscore entry, while the constant history [7,7,7,7,7] gives the
substituted value 0 on the update_analytics path. -/
theorem zscore_zero_std_witness :
    zscoreEntry [3, 3] 2 1 = none ∧ update_zscore [7, 7, 7, 7, 7] = 0 :=
  zscore_zero_std [3, 3] 2 1 [7, 7, 7, 7, 7]
    (by norm_num [windowAt, sampleVar, sqDevSum, listMean])
    (by norm_num [popVar, sqDevSum, listMean])

/-- `WINDOW_SIZE` of binance_ws.py: the capacity of the live price and
spread deques. -/
def WINDOW_SIZE : ℕ := 50

/-- C6 (refuting evaluation): the live spread window of update_analytics
has capacity WINDOW_SIZE = 50, yet its 5th push — well within the first
WINDOW_SIZE − 1 pushes of the freshly created window — already publishes
a defined z-score (here 2), so the warm-up property fails on that path. -/
theorem update_zscore_defined_early :
    ([0, 0, 0, 0, 1] : List ℚ).length < WINDOW_SIZE - 1 ∧
    update_analytics_zscore [0, 0, 0, 0, 1] = some 2 := by
  have h4 : Real.sqrt 4 = 2 := by
    rw [show (4 : ℝ) = 2 ^ 2 by norm_num, Real.sqrt_sq (by norm_num)]
  have h25 : Real.sqrt 25 = 5 := by
    rw [show (25 : ℝ) = 5 ^ 2 by norm_num, Real.sqrt_sq (by norm_num)]
  have hu : update_zscore [0, 0, 0, 0, 1] = 2 := by
    rw [update_zscore]
    rw [if_pos (by norm_num [popVar, sqDevSum, listMean])]
    norm_num [popVar, sqDevSum, listMean, List.getLastD]
    rw [h4, h25]
    norm_num
  refine ⟨by norm_num [WINDOW_SIZE], ?_⟩
  rw [update_analytics_zscore, if_neg (by norm_num), hu]

/-- C6 (amended): for window size W ≥ 2 the compute_zscore path is
undefined for the first W − 1 pushes and defined (finite, since ℝ-valued)
at every index with a full window of nonzero sample variance; the live
update_analytics spread window instead publishes no z-score for the
first 4 pushes and a defined z-score on every push from the 5th onward,
regardless of its WINDOW_SIZE capacity. -/
theorem zscore_warmup_and_defined (series : List ℚ) (window : ℕ)
    (hw : 1 < window) (hist : List ℚ) :
    compute_zscore series window =
      Except.ok ((List.range series.length).map (zscoreEntry series window)) ∧
    (∀ i, i + 1 < window → zscoreEntry series window i = none) ∧
    (∀ i, window ≤ i + 1 → i < series.length →
      sampleVar (windowAt series window i) ≠ 0 →
      ∃ z : ℝ, zscoreEntry series window i = some z) ∧
    (hist.length < 5 → update_analytics_zscore hist = none) ∧
    (5 ≤ hist.length → ∃ z : ℝ, update_analytics_zscore hist = some z) := by
  refine ⟨?_, ?_, ?_, ?_, ?_⟩
  · rw [compute_zscore, if_neg (not_le.mpr hw)]
  · intro i hi
    rw [zscoreEntry, if_pos (Or.inl hi)]
  · intro i hwi hilen hvar
    rw [zscoreEntry, if_neg (by push_neg; exact ⟨hwi, hilen⟩)]
    rw [if_neg hvar]
    exact ⟨_, rfl⟩
  · intro hshort
    rw [update_analytics_zscore, if_pos hshort]
  · intro hlong
    rw [update_analytics_zscore, if_neg (not_lt.mpr hlong)]
    exact ⟨_, rfl⟩

/-- Witness for C6 (amended): with window 2 over the series [0,1], push 1
of 2 has an undefined z-score and the full-window entry is defined; the
live path publishes a defined z-score for the 5-element history
[1,2,3,4,5]. -/
theorem zscore_warmup_and_defined_witness :
    zscoreEntry [0, 1] 2 0 = none ∧ (∃ z : ℝ, zscoreEntry [0, 1] 2 1 = some z) ∧
    (∃ z : ℝ, update_analytics_zscore [1, 2, 3, 4, 5] = some z) :=
  ⟨(zscore_warmup_and_defined [0, 1] 2 (by norm_num) []).2.1 0 (by norm_num),
   (zscore_warmup_and_defined [0, 1] 2 (by norm_num) []).2.2.1 1 (by norm_num)
     (by norm_num) (by norm_num [windowAt, sampleVar, sqDevSum, listMean]),
   (zscore_warmup_and_defined [0, 1] 2 (by norm_num) [1, 2, 3, 4, 5]).2.2.2.2
     (by norm_num)⟩

/-! ## Hedge ratio and spread (app/analytics/hedge_ratio.py,
app/analytics/spread.py)

Input series carry floats that may be non-finite: a value is `some q`
when finite and `none` when NaN or ±infinity (what `np.isfinite`
rejects).  A raised ValueError is `Except.error` with the message of the
source; a returned Python `None` is `Except.ok none`. -/

/-- `compute_hedge_ratio(x, y)`: raises for length mismatch, returns None
for fewer than 2 points or any non-finite value, else the slope of the
degree-1 `np.polyfit` (OLS with intercept),
slope = (nΣxy − ΣxΣy) / (nΣx² − (Σx)²).  The except-branch of the source
(polyfit failing) is modelled by the degenerate zero denominator. -/
def compute_hedge_ratio (x y : List (Option ℚ)) : Except String (Option ℚ) :=
  if x.length ≠ y.length then
    Except.error "Input arrays x and y must have the same length."
  else if x.length < 2 then Except.ok none
  else if (x.any fun v => v.isNone) || (y.any fun v => v.isNone) then Except.ok none
  else
    let xs := x.map fun v => v.getD 0
    let ys := y.map fun v => v.getD 0
    let n : ℚ := xs.length
    let sx := xs.sum
    let sy := ys.sum
    let sxx := (xs.map fun a => a * a).sum
    let sxy := (List.zipWith (fun a b => a * b) xs ys).sum
    if n * sxx - sx * sx = 0 then Except.ok none
    else Except.ok (some ((n * sxy - sx * sy) / (n * sxx - sx * sx)))

/-- `compute_spread(x, y, hedge_ratio)`: raises for a None hedge ratio or
a length mismatch, otherwise returns y − hedge_ratio·x element-wise
(arithmetic on a non-finite value stays non-finite); it performs no
minimum-length and no finiteness check. -/
def compute_spread (x y : List (Option ℚ)) (hedge_ratio_arg : Option ℚ) :
    Except String (List (Option ℚ)) :=
  match hedge_ratio_arg with
  | none => Except.error "Hedge ratio cannot be None."
  | some h =>
    if x.length ≠ y.length then
      Except.error "Input arrays x and y must have the same length."
    else
      Except.ok (List.zipWith (fun a b =>
        match a, b with
        | some av, some bv => some (bv - h * av)
        | _, _ => none) x y)

/-- C7 (refuting evaluation): a failed precondition is not always signaled
as an undefined result: unequal lengths make compute_hedge_ratio raise a
ValueError, and compute_spread happily returns a defined spread for a
length-1 series (no length ≥ 2 precondition at all). -/
theorem precondition_failure_not_signaled :
    compute_hedge_ratio [some 1] [some 1, some 2] =
      Except.error "Input arrays x and y must have the same length." ∧
    compute_spread [some 1] [some 2] (some 3) = Except.ok [some (-1)] := by
  constructor
  · rfl
  · rw [compute_spread]
    norm_num

/-- C7 (amended): with equal lengths, compute_hedge_ratio signals a failed
length ≥ 2 or finiteness precondition by returning None; unequal lengths
raise a ValueError in both operations instead of returning an undefined
result; a None hedge ratio makes compute_spread raise. -/
theorem hedge_ratio_spread_preconditions :
    (∀ x y : List (Option ℚ), x.length = y.length →
      (x.length < 2 ∨ none ∈ x ∨ none ∈ y) →
      compute_hedge_ratio x y = Except.ok none) ∧
    (∀ x y : List (Option ℚ), x.length ≠ y.length →
      compute_hedge_ratio x y =
        Except.error "Input arrays x and y must have the same length.") ∧
    (∀ (x y : List (Option ℚ)) (h : ℚ), x.length ≠ y.length →
      compute_spread x y (some h) =
        Except.error "Input arrays x and y must have the same length.") ∧
    (∀ x y : List (Option ℚ),
      compute_spread x y none = Except.error "Hedge ratio cannot be None.") := by
  refine ⟨?_, ?_, ?_, ?_⟩
  · intro x y hlen hbad
    rw [compute_hedge_ratio, if_neg (by simp [hlen])]
    by_cases h2 : x.length < 2
    · rw [if_pos h2]
    · rw [if_neg h2]
      have hany : ((x.any fun v => v.isNone) || (y.any fun v => v.isNone)) = true := by
        rcases hbad with h | h | h
        · exact absurd h h2
        · exact Bool.or_eq_true_iff.mpr (Or.inl (by
            simp only [List.any_eq_true]
            exact ⟨none, h, rfl⟩))
        · exact Bool.or_eq_true_iff.mpr (Or.inr (by
            simp only [List.any_eq_true]
            exact ⟨none, h, rfl⟩))
      rw [if_pos hany]
  · intro x y hlen
    rw [compute_hedge_ratio, if_pos hlen]
  · intro x y h hlen
    rw [compute_spread, if_pos hlen]
  · intro x y
    rfl

/-- Witness for C7 (amended): each amended behavior at a concrete input:
a non-finite value gives Ok None, a length mismatch raises in both
functions, a None hedge ratio raises. -/
theorem hedge_ratio_spread_preconditions_witness :
    compute_hedge_ratio [some 1, none] [some 2, some 3] = Except.ok none ∧
    compute_hedge_ratio [some 1] [] =
      Except.error "Input arrays x and y must have the same length." ∧
    compute_spread [some 1] [some 2, some 3] (some 1) =
      Except.error "Input arrays x and y must have the same length." ∧
    compute_spread [] [] none = Except.error "Hedge ratio cannot be None." :=
  ⟨hedge_ratio_spread_preconditions.1 [some 1, none] [some 2, some 3] rfl
      (Or.inr (Or.inl (by simp))),
   hedge_ratio_spread_preconditions.2.1 [some 1] [] (by simp),
   hedge_ratio_spread_preconditions.2.2.1 [some 1] [some 2, some 3] 1 (by simp),
   hedge_ratio_spread_preconditions.2.2.2 [] []⟩

/-! ## Tick-to-bar sampler (app/sampling/sampler.py)

The sampler keeps one active bar per (symbol, timeframe) key and every
operation is key-local (the closure sweep visits keys independently), so
the embedding follows one key: one symbol and one timeframe, as the
claims do.  Timestamps and wall-clock instants are seconds as rationals;
the two `datetime.now` reads inside one `process_tick` call (closure
sweep and late check) are modelled as the single instant `Tick.now`.
Emission (`_finalize_bar` logging a bar) is modelled by appending the bar
to an emitted list, with the discard rule for empty/invalid bars. -/

/-- One OHLCV bar (`count` is the trade_count of the spec). -/
structure Bar where
  start_time : ℚ
  end_time : ℚ
  open_ : ℚ
  high : ℚ
  low : ℚ
  close : ℚ
  volume : ℚ
  count : ℕ
deriving DecidableEq

/-- `_get_period_start`: floor-align a timestamp to the period
(`(timestamp_sec // period_seconds) * period_seconds`). -/
def getPeriodStart (timestamp period_seconds : ℚ) : ℚ :=
  ((⌊timestamp / period_seconds⌋ : ℤ) : ℚ) * period_seconds

/-- `_create_bar`: a fresh bar whose OHLC all equal the tick price. -/
def createBar (start_time period_seconds price qty : ℚ) : Bar :=
  ⟨start_time, start_time + period_seconds, price, price, price, price, qty, 1⟩

/-- `_update_bar`: fold one tick into an active bar. -/
def updateBar (bar : Bar) (price qty : ℚ) : Bar :=
  { bar with
    high := max bar.high price
    low := min bar.low price
    close := price
    volume := bar.volume + qty
    count := bar.count + 1 }

/-- `_finalize_bar`: the bars actually emitted for a finalized bar — none
when the bar has non-positive volume or close (the discard rule), else
the bar itself. -/
def finalizeBar (bar : Bar) : List Bar :=
  if bar.volume ≤ 0 ∨ bar.close ≤ 0 then [] else [bar]

/-- One incoming tick together with the wall-clock instant at which
`process_tick` handles it. -/
structure Tick where
  now : ℚ
  ts : ℚ
  price : ℚ
  qty : ℚ
deriving DecidableEq

/-- Result of running the sampler: the remaining active bar, the emitted
bars in order, and how many ticks were admitted (non-late). -/
structure RunOut where
  active : Option Bar
  emitted : List Bar
  admitted : ℕ
deriving DecidableEq

/-- `_check_buffer_closures` for the single key: finalize and drop the
active bar once the wall clock has passed its end_time. -/
def sweep (now : ℚ) : Option Bar → Option Bar × List Bar
  | none => (none, [])
  | some b => if b.end_time < now then (none, finalizeBar b) else (some b, [])

/-- The per-timeframe body of `process_tick`: drop late ticks (whose
period already ended in wall-clock time), else update the matching active
bar, or finalize a mismatched one and open a new bar from this tick. -/
def admitTick (tf : ℚ) (active : Option Bar) (t : Tick) : RunOut :=
  let period_start := getPeriodStart t.ts tf
  let period_end := period_start + tf
  if period_end < t.now then ⟨active, [], 0⟩
  else
    match active with
    | none => ⟨some (createBar period_start tf t.price t.qty), [], 1⟩
    | some b =>
      if period_start = b.start_time then
        ⟨some (updateBar b t.price t.qty), [], 1⟩
      else
        ⟨some (createBar period_start tf t.price t.qty), finalizeBar b, 1⟩

/-- `process_tick` for the single key: closure sweep first, then the
late-check/update/create logic. -/
def processTick (tf : ℚ) (active : Option Bar) (t : Tick) : RunOut :=
  let swept := sweep t.now active
  let r := admitTick tf swept.1 t
  ⟨r.active, swept.2 ++ r.emitted, r.admitted⟩

/-- A whole tick sequence through the sampler. -/
def runTicks (tf : ℚ) (active : Option Bar) : List Tick → RunOut
  | [] => ⟨active, [], 0⟩
  | t :: rest =>
    let s := processTick tf active t
    let r := runTicks tf s.active rest
    ⟨r.active, s.emitted ++ r.emitted, s.admitted + r.admitted⟩

/-- All bars ever emitted when, after the run, the still-open bar is also
finalized (the "every opened bar is eventually finalized" premise of the
claim: a later sweep would do exactly this). -/
def flushActive (r : RunOut) : List Bar :=
  r.emitted ++ (match r.active with | none => [] | some b => finalizeBar b)

/-- Total trade_count of a list of bars. -/
def counts (l : List Bar) : ℕ := (l.map fun b => b.count).sum

/-- trade_count held by the active slot. -/
def acount : Option Bar → ℕ
  | none => 0
  | some b => b.count

/-- A tick with positive price and positive quantity. -/
def goodTick (t : Tick) : Prop := 0 < t.price ∧ 0 < t.qty

/-- The active slot is empty or holds a bar with positive volume and
positive close (such a bar survives the discard rule). -/
def goodOpt : Option Bar → Prop
  | none => True
  | some b => 0 < b.volume ∧ 0 < b.close

/-- A bar with positive volume and close is emitted as-is. -/
theorem finalizeBar_of_good (b : Bar) (hv : 0 < b.volume) (hc : 0 < b.close) :
    finalizeBar b = [b] := by
  rw [finalizeBar, if_neg]
  push_neg
  exact ⟨hv, hc⟩

/-- `counts` distributes over append. -/
theorem counts_append (l1 l2 : List Bar) :
    counts (l1 ++ l2) = counts l1 + counts l2 := by
  simp [counts]

/-- One `process_tick` call conserves trade_count: the counts moved to the
emitted list plus the count held by the active bar grow by exactly the
number of admitted ticks (0 or 1), and the active bar keeps positive
volume and close when ticks have positive price and quantity. -/
theorem processTick_conservation (tf : ℚ) (active : Option Bar) (t : Tick)
    (hg : goodOpt active) (ht : goodTick t) :
    goodOpt (processTick tf active t).active ∧
    counts (processTick tf active t).emitted + acount (processTick tf active t).active
      = acount active + (processTick tf active t).admitted := by
  obtain ⟨hp, hq⟩ := ht
  cases active with
  | none =>
    by_cases hlate : getPeriodStart t.ts tf + tf < t.now
    · simp [processTick, sweep, admitTick, hlate, counts, acount, goodOpt]
    · simp [processTick, sweep, admitTick, hlate, counts, acount, goodOpt, createBar]
      exact ⟨hq, hp⟩
  | some b =>
    obtain ⟨hv, hc⟩ := hg
    by_cases hsw : b.end_time < t.now
    · by_cases hlate : getPeriodStart t.ts tf + tf < t.now
      · simp [processTick, sweep, admitTick, hsw, hlate, counts, acount, goodOpt,
          finalizeBar_of_good b hv hc]
      · simp [processTick, sweep, admitTick, hsw, hlate, counts, acount, goodOpt,
          createBar, finalizeBar_of_good b hv hc]
        exact ⟨hq, hp⟩
    · by_cases hlate : getPeriodStart t.ts tf + tf < t.now
      · simp [processTick, sweep, admitTick, hsw, hlate, counts, acount, goodOpt]
        exact ⟨hv, hc⟩
      · by_cases hmatch : getPeriodStart t.ts tf = b.start_time
        · rw [hmatch] at hlate
          simp [processTick, sweep, admitTick, hsw, hlate, hmatch, counts, acount,
            goodOpt, updateBar]
          exact ⟨by linarith, hp⟩
        · simp [processTick, sweep, admitTick, hsw, hlate, hmatch, counts, acount,
            goodOpt, createBar, finalizeBar_of_good b hv hc]
          exact ⟨hq, hp⟩

/-- Conservation over a whole run, relative to any good starting slot. -/
theorem runTicks_conservation (tf : ℚ) :
    ∀ (ticks : List Tick) (active : Option Bar),
      goodOpt active → (∀ t ∈ ticks, goodTick t) →
      goodOpt (runTicks tf active ticks).active ∧
      counts (runTicks tf active ticks).emitted +
          acount (runTicks tf active ticks).active
        = acount active + (runTicks tf active ticks).admitted := by
  intro ticks
  induction ticks with
  | nil =>
    intro active hg _
    exact ⟨hg, by simp [runTicks, counts]⟩
  | cons t rest ih =>
    intro active hg hts
    obtain ⟨hg1, hc1⟩ := processTick_conservation tf active t hg (hts t (by simp))
    obtain ⟨hg2, hc2⟩ :=
      ih (processTick tf active t).active hg1 (fun u hu => hts u (by simp [hu]))
    refine ⟨by simpa [runTicks] using hg2, ?_⟩
    simp only [runTicks, counts_append]
    omega

/-- C8 (amended): for ticks with positive price and positive quantity, the
sum of trade_count over all finalized bars — the run's emissions plus the
final flush of the still-open bar — equals the number of admitted
(non-late) ticks. -/
theorem sampler_count_conservation (tf : ℚ) (ticks : List Tick)
    (hts : ∀ t ∈ ticks, goodTick t) :
    counts (flushActive (runTicks tf none ticks)) =
      (runTicks tf none ticks).admitted := by
  obtain ⟨hg, hc⟩ := runTicks_conservation tf ticks none trivial hts
  rw [flushActive, counts_append]
  cases hact : (runTicks tf none ticks).active with
  | none =>
    rw [hact] at hc
    simpa [counts, acount] using hc
  | some b =>
    rw [hact] at hc hg
    have hred : (match some b with | none => ([] : List Bar) | some b => finalizeBar b)
        = finalizeBar b := rfl
    rw [hred, finalizeBar_of_good b hg.1 hg.2]
    simp only [acount] at hc
    simp [counts] at hc ⊢
    omega

/-- C8 (refuting evaluation): a single on-time tick with quantity 0 is
admitted (trade_count 1) but its bar has volume 0 and is discarded at
finalization, so the emitted trade_count sum is 0, not 1. -/
theorem sampler_count_counterexample :
    counts (flushActive (runTicks 1 none [⟨0, 0, 100, 0⟩])) = 0 ∧
    (runTicks 1 none [⟨0, 0, 100, 0⟩]).admitted = 1 := by
  constructor <;>
    norm_num [runTicks, processTick, sweep, admitTick, getPeriodStart, createBar,
      flushActive, finalizeBar, counts]

/-- Witness for C8 (amended): one admitted unit-quantity tick, one emitted
bar with trade_count 1. -/
theorem sampler_count_conservation_witness :
    counts (flushActive (runTicks 1 none [⟨0, 0, 100, 1⟩])) =
      (runTicks 1 none [⟨0, 0, 100, 1⟩]).admitted :=
  sampler_count_conservation 1 [⟨0, 0, 100, 1⟩] (by norm_num [goodTick])

/-- The bar invariants of the spec: start_time is an integer multiple of
the timeframe, high dominates open and close, low is below open and
close. -/
def BarInv (tf : ℚ) (b : Bar) : Prop :=
  (∃ k : ℤ, b.start_time = (k : ℚ) * tf) ∧
  max b.open_ b.close ≤ b.high ∧ b.low ≤ min b.open_ b.close

/-- A bar created from a floor-aligned period start satisfies the
invariants. -/
theorem createBar_inv (tf ts price qty : ℚ) :
    BarInv tf (createBar (getPeriodStart ts tf) tf price qty) :=
  ⟨⟨⌊ts / tf⌋, rfl⟩, by simp [createBar], by simp [createBar]⟩

/-- `_update_bar` preserves the invariants. -/
theorem updateBar_inv (tf : ℚ) (b : Bar) (price qty : ℚ) (h : BarInv tf b) :
    BarInv tf (updateBar b price qty) := by
  obtain ⟨hk, hh, hl⟩ := h
  refine ⟨hk, ?_, ?_⟩
  · have ho : b.open_ ≤ b.high := le_trans (le_max_left _ _) hh
    simp only [updateBar]
    exact max_le (le_trans ho (le_max_left _ _)) (le_max_right _ _)
  · have ho : b.low ≤ b.open_ := le_trans hl (min_le_left _ _)
    simp only [updateBar]
    exact le_min (le_trans (min_le_left _ _) ho) (min_le_right _ _)

/-- Bars surviving the discard rule inherit the invariants. -/
theorem barInv_of_mem_finalizeBar (tf : ℚ) (b : Bar) (h : BarInv tf b) :
    ∀ c ∈ finalizeBar b, BarInv tf c := by
  intro c hc
  rw [finalizeBar] at hc
  split_ifs at hc
  · simp at hc
  · rw [List.mem_singleton] at hc
    subst hc
    exact h

/-- One `process_tick` call preserves the invariants of the active bar and
establishes them for everything it emits. -/
theorem processTick_inv (tf : ℚ) (active : Option Bar) (t : Tick)
    (hg : ∀ b, active = some b → BarInv tf b) :
    (∀ b, (processTick tf active t).active = some b → BarInv tf b) ∧
    (∀ b ∈ (processTick tf active t).emitted, BarInv tf b) := by
  cases active with
  | none =>
    by_cases hlate : getPeriodStart t.ts tf + tf < t.now
    · constructor
      · intro b hb
        simp [processTick, sweep, admitTick, hlate] at hb
      · intro b hb
        simp [processTick, sweep, admitTick, hlate] at hb
    · constructor
      · intro b hb
        simp [processTick, sweep, admitTick, hlate] at hb
        rw [← hb]
        exact createBar_inv tf t.ts t.price t.qty
      · intro b hb
        simp [processTick, sweep, admitTick, hlate] at hb
  | some a =>
    have hia : BarInv tf a := hg a rfl
    by_cases hsw : a.end_time < t.now
    · by_cases hlate : getPeriodStart t.ts tf + tf < t.now
      · constructor
        · intro b hb
          simp [processTick, sweep, admitTick, hsw, hlate] at hb
        · intro b hb
          simp [processTick, sweep, admitTick, hsw, hlate] at hb
          exact barInv_of_mem_finalizeBar tf a hia b hb
      · constructor
        · intro b hb
          simp [processTick, sweep, admitTick, hsw, hlate] at hb
          rw [← hb]
          exact createBar_inv tf t.ts t.price t.qty
        · intro b hb
          simp [processTick, sweep, admitTick, hsw, hlate] at hb
          exact barInv_of_mem_finalizeBar tf a hia b hb
    · by_cases hlate : getPeriodStart t.ts tf + tf < t.now
      · constructor
        · intro b hb
          simp [processTick, sweep, admitTick, hsw, hlate] at hb
          rw [← hb]
          exact hia
        · intro b hb
          simp [processTick, sweep, admitTick, hsw, hlate] at hb
      · by_cases hmatch : getPeriodStart t.ts tf = a.start_time
        · rw [hmatch] at hlate
          constructor
          · intro b hb
            simp [processTick, sweep, admitTick, hsw, hlate, hmatch] at hb
            rw [← hb]
            exact updateBar_inv tf a t.price t.qty hia
          · intro b hb
            simp [processTick, sweep, admitTick, hsw, hlate, hmatch] at hb
        · constructor
          · intro b hb
            simp [processTick, sweep, admitTick, hsw, hlate, hmatch] at hb
            rw [← hb]
            exact createBar_inv tf t.ts t.price t.qty
          · intro b hb
            simp [processTick, sweep, admitTick, hsw, hlate, hmatch] at hb
            exact barInv_of_mem_finalizeBar tf a hia b hb

/-- The invariants hold for the whole run, from any invariant start. -/
theorem runTicks_inv (tf : ℚ) :
    ∀ (ticks : List Tick) (active : Option Bar),
      (∀ b, active = some b → BarInv tf b) →
      (∀ b, (runTicks tf active ticks).active = some b → BarInv tf b) ∧
      (∀ b ∈ (runTicks tf active ticks).emitted, BarInv tf b) := by
  intro ticks
  induction ticks with
  | nil =>
    intro active hg
    exact ⟨hg, by intro b hb; simp [runTicks] at hb⟩
  | cons t rest ih =>
    intro active hg
    obtain ⟨h1, h2⟩ := processTick_inv tf active t hg
    obtain ⟨h3, h4⟩ := ih (processTick tf active t).active h1
    constructor
    · intro b hb
      exact h3 b hb
    · intro b hb
      simp only [runTicks, List.mem_append] at hb
      rcases hb with hb | hb
      · exact h2 b hb
      · exact h4 b hb

/-- C9: every bar the sampler holds active — hence every bar it created or
updated — and every finalized (emitted) bar has a start_time that is an
exact integer multiple of the timeframe, high ≥ max(open, close) and
low ≤ min(open, close). -/
theorem sampler_bar_invariants (tf : ℚ) (ticks : List Tick) :
    (∀ b, (runTicks tf none ticks).active = some b → BarInv tf b) ∧
    (∀ b ∈ flushActive (runTicks tf none ticks), BarInv tf b) := by
  obtain ⟨ha, he⟩ := runTicks_inv tf ticks none (by intro b h; cases h)
  refine ⟨ha, ?_⟩
  intro b hb
  rw [flushActive, List.mem_append] at hb
  rcases hb with hb | hb
  · exact he b hb
  · cases hact : (runTicks tf none ticks).active with
    | none => rw [hact] at hb; simp at hb
    | some a =>
      rw [hact] at hb
      exact barInv_of_mem_finalizeBar tf a (ha a hact) b hb

/-- Witness for C9: the bar built from one tick at timestamp 0, price 5,
quantity 1 for the 1-second timeframe satisfies the invariants. -/
theorem sampler_bar_invariants_witness :
    BarInv 1 ⟨0, 1, 5, 5, 5, 5, 1, 1⟩ :=
  (sampler_bar_invariants 1 [⟨0, 0, 5, 1⟩]).1 ⟨0, 1, 5, 5, 5, 5, 1, 1⟩
    (by norm_num [runTicks, processTick, sweep, admitTick, getPeriodStart, createBar])

end Quant
